import Mathlib

/-!
Verification of the banderole bundler and launcher against its specification.

The development shallowly embeds the relevant Rust functions of
`src/bundler.rs` and `src/template/src/main.rs`:

* strings manipulated character-by-character become `List Char`;
* filesystem queries made by a function become explicit boolean-valued
  parameters (an abstract filesystem view);
* the launcher's `main` becomes a pure function from the observed cache
  states to the trace of actions it performs and the final cache state;
* the `while` loop of `resolve_output_path` is modelled with an explicit
  fuel parameter, with termination proved for sufficient fuel;
* the recursive dependency resolver is defined structurally on the
  remaining depth budget `21 - depth`, which coincides exactly with the
  Rust guard `if depth > 20 { return }`.
-/

/-! ## ContentStore name parser (`extract_package_name_from_pnpm`, bundler.rs) -/

/-- Model of Rust `str::replace('+', "/")` on a character list. -/
def plusToSlash (s : List Char) : List Char :=
  s.map (fun c => if c = '+' then '/' else c)

/-- Index of the last occurrence of `'@'` in the list, as computed by Rust
`str::rfind('@')`; `none` when the character does not occur. -/
def rfindAt : List Char → Option Nat
  | [] => none
  | c :: cs =>
    match rfindAt cs with
    | some i => some (i + 1)
    | none => if c = '@' then some 0 else none

/-- Index of the first occurrence of `'@'`, as computed by Rust
`str::find('@')`. -/
def ffindAt (s : List Char) : Option Nat :=
  s.findIdx? (fun c => c = '@')

/-- Embedding of `extract_package_name_from_pnpm` from `src/bundler.rs`:
for a pnpm store directory entry, recover the package name. -/
def extract_package_name_from_pnpm (pnpm_name : List Char) : Option (List Char) :=
  if pnpm_name.head? = some '@' then
    match rfindAt pnpm_name with
    | some at_pos =>
      if at_pos > 0 then
        some (plusToSlash (pnpm_name.take at_pos))
      else
        some (plusToSlash pnpm_name)
    | none => some (plusToSlash pnpm_name)
  else
    match ffindAt pnpm_name with
    | some at_pos => some (pnpm_name.take at_pos)
    | none => some pnpm_name

/-- The parser exactly as the specification words it: for an entry starting
with `@`, the substring before the LAST `@` with `+` rewritten to `/`;
otherwise the substring before the first `@`; entries without `@` are the
whole name. -/
def claimedPnpmName (s : List Char) : List Char :=
  if s.head? = some '@' then
    match rfindAt s with
    | some i => plusToSlash (s.take i)
    | none => plusToSlash s
  else
    match ffindAt s with
    | some i => s.take i
    | none => s

/-- The amended parsing rule: identical to the specification's rule except
that an entry starting with `@` whose only `@` is that first character is
returned whole (with `+` rewritten to `/`), rather than truncated to the
empty substring before its last `@`. -/
def amendedPnpmName (s : List Char) : List Char :=
  if s.head? = some '@' then
    match rfindAt s with
    | some i =>
      if i > 0 then plusToSlash (s.take i) else plusToSlash s
    | none => plusToSlash s
  else
    match ffindAt s with
    | some i => s.take i
    | none => s

/-- A scoped store entry with no version suffix: `@scope+name`. -/
def scopedNoVersion : List Char :=
  ['@', 's', 'c', 'o', 'p', 'e', '+', 'n', 'a', 'm', 'e']

/-- A scoped store entry with a version suffix: `@scope+name@1.0.0`. -/
def scopedWithVersion : List Char :=
  ['@', 's', 'c', 'o', 'p', 'e', '+', 'n', 'a', 'm', 'e', '@', '1', '.', '0', '.', '0']

/-- The name `@scope/name` that both entries above denote. -/
def scopedSlashName : List Char :=
  ['@', 's', 'c', 'o', 'p', 'e', '/', 'n', 'a', 'm', 'e']

/-- C5 counterexample: on the entry `@scope+name` (whose only `@` is its
first character) the code returns the whole name `@scope/name`, while the
claimed rule (substring before the last `@`, i.e. before position 0) would
return the empty name; so the claim as stated is false. -/
theorem extract_package_name_scoped_no_version_diverges :
    extract_package_name_from_pnpm scopedNoVersion = some scopedSlashName ∧
    claimedPnpmName scopedNoVersion = [] ∧
    extract_package_name_from_pnpm scopedNoVersion ≠ some (claimedPnpmName scopedNoVersion) := by
  refine ⟨by decide, by decide, by decide⟩

/-- C5 amended: the parser agrees with the amended rule on every entry, and
in particular maps `@scope+name@1.0.0` to `@scope/name`. -/
theorem extract_package_name_from_pnpm_spec :
    (∀ s : List Char, extract_package_name_from_pnpm s = some (amendedPnpmName s)) ∧
    extract_package_name_from_pnpm scopedWithVersion = some scopedSlashName := by
  constructor
  · intro s
    unfold extract_package_name_from_pnpm amendedPnpmName
    split
    · cases rfindAt s with
      | none => rfl
      | some i => by_cases h : i > 0 <;> simp [h]
    · cases ffindAt s with
      | none => rfl
      | some i => rfl
  · decide

/-! ## Output path resolution (`resolve_output_path`, bundler.rs) -/

/-- The names `resolve_output_path` can form from the derived base name:
the bare base name (with platform extension), the base with `-bundle`
appended, and the base with `-bundle-N` appended.  An explicitly supplied
output path is a fourth, unrelated shape.  With the base name fixed these
four shapes are pairwise distinct strings, so they are modelled as an
inductive type. -/
inductive OutPath where
  | base : OutPath
  | bundle : OutPath
  | bundleN : Nat → OutPath
  | explicitPath : OutPath
deriving DecidableEq

/-- One model of the collision `while` loop of `resolve_output_path`,
with explicit fuel.  Each iteration of the Rust loop either exits (the
candidate no longer exists), breaks (the colliding candidate was a
directory and the `-bundle` name is free), or moves to `-bundle-counter`
and increments the counter; the third case is the recursive call. -/
def resolveLoop (ex isd : OutPath → Bool) : Nat → OutPath → Nat → Option OutPath
  | 0, _, _ => none
  | fuel + 1, out, counter =>
    if ex out = false then some out
    else if isd out = true ∧ ex OutPath.bundle = false then some OutPath.bundle
    else resolveLoop ex isd fuel (OutPath.bundleN counter) (counter + 1)

/-- Embedding of `resolve_output_path` from `src/bundler.rs`: an explicit
output path is returned as-is; otherwise the derived name is run through
the collision loop starting from the bare base name with counter 1. -/
def resolve_output_path (ex isd : OutPath → Bool) (output_path : Option OutPath) (fuel : Nat) :
    Option OutPath :=
  match output_path with
  | some path => some path
  | none => resolveLoop ex isd fuel OutPath.base 1

/-- An abstract filesystem in which only the bare base name exists, and it
is a regular file (not a directory). -/
def fsBaseFileOnly : OutPath → Bool := fun p => p = OutPath.base

/-- A directory predicate that marks nothing as a directory. -/
def fsNoDirs : OutPath → Bool := fun _ => false

/-- C9 counterexample: when the derived name collides with an existing
FILE, the code never tries the `-bundle` name even though it is free; it
jumps straight to `-bundle-1`.  The claimed rule (first `-bundle`, then
`-bundle-N`) would have returned the `-bundle` name here. -/
theorem resolve_output_path_file_collision_skips_bundle :
    resolve_output_path fsBaseFileOnly fsNoDirs none 3 = some (OutPath.bundleN 1) ∧
    fsBaseFileOnly OutPath.bundle = false := by
  refine ⟨by decide, by decide⟩

/-- Sufficiency of the fuel for the collision loop: if every `-bundle-n`
with `n ≥ N` is free, the loop returns some name that does not collide. -/
theorem resolveLoop_reaches_fresh (ex isd : OutPath → Bool) (N : Nat)
    (hN : ∀ n, N ≤ n → ex (OutPath.bundleN n) = false) :
    ∀ fuel counter out, N + 2 ≤ fuel + counter → 1 ≤ fuel →
      (2 ≤ fuel ∨ ex out = false) →
      ∃ r, resolveLoop ex isd fuel out counter = some r ∧ ex r = false := by
  intro fuel
  induction fuel with
  | zero => intro counter out _ h1 _; omega
  | succ f ih =>
    intro counter out hsum _ hfe
    by_cases hex : ex out = false
    · exact ⟨out, by simp [resolveLoop, hex], hex⟩
    · by_cases hbr : isd out = true ∧ ex OutPath.bundle = false
      · refine ⟨OutPath.bundle, ?_, hbr.2⟩
        simp only [resolveLoop]
        rw [if_neg hex, if_pos hbr]
      · have hstep : resolveLoop ex isd (f + 1) out counter =
            resolveLoop ex isd f (OutPath.bundleN counter) (counter + 1) := by
          simp only [resolveLoop]
          rw [if_neg hex, if_neg hbr]
        have hf2 : 2 ≤ f + 1 := by
          rcases hfe with h | h
          · exact h
          · exact absurd h hex
        have hf1 : 1 ≤ f := by omega
        rcases Nat.lt_or_ge f 2 with hflt | hfge
        · -- f = 1: the counter has already passed N, so the next candidate is free
          have hcN : N ≤ counter := by omega
          have hfree : ex (OutPath.bundleN counter) = false := hN counter hcN
          refine ⟨OutPath.bundleN counter, ?_, hfree⟩
          rw [hstep]
          have : f = 1 := by omega
          subst this
          simp [resolveLoop, hfree]
        · obtain ⟨r, hr, hrex⟩ :=
            ih (counter + 1) (OutPath.bundleN counter) (by omega) hf1 (Or.inl hfge)
          exact ⟨r, by rw [hstep]; exact hr, hrex⟩

/-- C9 amended: on a name collision the tool appends `-bundle` only when
the colliding path is a directory; a collision with a plain file (and a
`-bundle` candidate that itself exists) instead moves directly to
`-bundle-N` for increasing `N` starting at 1; in every case, on a
filesystem with finitely many colliding names the returned path does not
refer to an existing file or directory. -/
theorem resolve_output_path_fresh (ex isd : OutPath → Bool) (N : Nat)
    (hN : ∀ n, N ≤ n → ex (OutPath.bundleN n) = false) :
    (∃ r, resolve_output_path ex isd none (N + 2) = some r ∧ ex r = false) ∧
    (ex OutPath.base = true → isd OutPath.base = false →
      ex (OutPath.bundleN 1) = false →
      resolveLoop ex isd 2 OutPath.base 1 = some (OutPath.bundleN 1)) := by
  constructor
  · exact resolveLoop_reaches_fresh ex isd N hN (N + 2) 1 OutPath.base
      (by omega) (by omega) (Or.inl (by omega))
  · intro hfile hnotdir h1
    simp [resolveLoop, hfile, hnotdir, h1]

/-- Witness for C9 on the filesystem where only the base name exists, as a
file: the loop yields the fresh name `-bundle-1`. -/
theorem resolve_output_path_fresh_witness :
    (∀ n, 1 ≤ n → fsBaseFileOnly (OutPath.bundleN n) = false) ∧
    ((∃ r, resolve_output_path fsBaseFileOnly fsNoDirs none 3 = some r ∧
        fsBaseFileOnly r = false) ∧
      (fsBaseFileOnly OutPath.base = true → fsNoDirs OutPath.base = false →
        fsBaseFileOnly (OutPath.bundleN 1) = false →
        resolveLoop fsBaseFileOnly fsNoDirs 2 OutPath.base 1 = some (OutPath.bundleN 1))) :=
  ⟨fun n _ => rfl,
   resolve_output_path_fresh fsBaseFileOnly fsNoDirs 1 (fun n _ => rfl)⟩

/-- C10: an explicitly supplied output path is returned unchanged even
when a file or directory already exists at it; the collision loop is never
consulted. -/
theorem resolve_output_path_explicit_unchanged (ex isd : OutPath → Bool) (fuel : Nat)
    (hexists : ex OutPath.explicitPath = true) :
    resolve_output_path ex isd (some OutPath.explicitPath) fuel = some OutPath.explicitPath := by
  rfl

/-- Witness for C10 at a filesystem where the explicit path exists. -/
theorem resolve_output_path_explicit_unchanged_witness :
    (fun _ : OutPath => true) OutPath.explicitPath = true ∧
    resolve_output_path (fun _ => true) (fun _ => false) (some OutPath.explicitPath) 0 =
      some OutPath.explicitPath :=
  ⟨by decide, resolve_output_path_explicit_unchanged (fun _ => true) (fun _ => false) 0 (by decide)⟩

/-! ## Dependency seeding and closure (bundler.rs)

Package names are strings in the source; the seeding and closure
algorithms consult them only through equality, so the models are generic
over a name type `α` with decidable equality.  A manifest is the portion
of a parsed `package.json` that the bundler reads. -/

/-- The dependency-related fields of a parsed `package.json`. -/
structure Manifest (α : Type) where
  dependencies : List α
  devDependencies : List α
  peerDependencies : List α
  optionalDependencies : List α

/-- Seed set built by `bundle_pnpm_dependencies` (bundler.rs, content-store
layout): only the root manifest's `dependencies` keys are queued. -/
def pnpmSeedPackages {α : Type} (m : Manifest α) : List α :=
  m.dependencies

/-- Seed set built by `bundle_node_modules_comprehensive` (bundler.rs, flat
layout): `dependencies`, then `peerDependencies`, then
`optionalDependencies` keys. -/
def comprehensiveSeedPackages {α : Type} (m : Manifest α) : List α :=
  m.dependencies ++ m.peerDependencies ++ m.optionalDependencies

/-- Seed set built by `bundle_workspace_dependencies` (bundler.rs,
workspace layout): `dependencies`, then `peerDependencies`, then
`optionalDependencies` keys of the project being bundled. -/
def workspaceSeedPackages {α : Type} (m : Manifest α) : List α :=
  m.dependencies ++ m.peerDependencies ++ m.optionalDependencies

/-- A root manifest with one production dependency and one peer
dependency. -/
def manifestWithPeer : Manifest Nat :=
  { dependencies := [0], devDependencies := [], peerDependencies := [1],
    optionalDependencies := [] }

/-- C6 counterexample: the root's peer dependency is seeded under the flat
and workspace layouts but NOT under the content-store (pnpm) layout, where
only `dependencies` seed the queue; so the claim fails for that layout. -/
theorem pnpm_seed_omits_root_peer_dependency :
    (1 : Nat) ∈ comprehensiveSeedPackages manifestWithPeer ∧
    (1 : Nat) ∈ workspaceSeedPackages manifestWithPeer ∧
    (1 : Nat) ∉ pnpmSeedPackages manifestWithPeer := by
  refine ⟨by decide, by decide, by decide⟩

/-- C6 amended: under the flat and workspace layouts the seed set is the
root's production, peer, and optional dependencies, while under the
content-store layout it is the production dependencies alone; no layout's
seed set reads the `devDependencies` field. -/
theorem seed_sets_by_layout {α : Type} (m : Manifest α) (d : α) (dev : List α) :
    (d ∈ comprehensiveSeedPackages m ↔
      d ∈ m.dependencies ∨ d ∈ m.peerDependencies ∨ d ∈ m.optionalDependencies) ∧
    (d ∈ workspaceSeedPackages m ↔
      d ∈ m.dependencies ∨ d ∈ m.peerDependencies ∨ d ∈ m.optionalDependencies) ∧
    (d ∈ pnpmSeedPackages m ↔ d ∈ m.dependencies) ∧
    comprehensiveSeedPackages { m with devDependencies := dev } =
      comprehensiveSeedPackages m ∧
    workspaceSeedPackages { m with devDependencies := dev } =
      workspaceSeedPackages m ∧
    pnpmSeedPackages { m with devDependencies := dev } = pnpmSeedPackages m := by
  refine ⟨?_, ?_, Iff.rfl, rfl, rfl, rfl⟩ <;>
    simp [comprehensiveSeedPackages, workspaceSeedPackages, or_assoc]

/-- An abstract view of the installation that the closure algorithm
queries: `lookup` models locating a package's `package.json` and parsing
it (`find_package_json_content` for the pnpm store,
the symlink-following probe of `resolve_workspace_dependencies` for flat
trees); `installed` models the existence probe used for peer and optional
dependencies (`package_exists_in_pnpm`, or `node_modules/NAME` existing). -/
structure PkgEnv (α : Type) where
  lookup : α → Option (Manifest α)
  installed : α → Bool

/-- Core of `resolve_package_dependencies` / `resolve_workspace_dependencies`
(bundler.rs), defined structurally on the remaining depth budget
`gas = 21 - depth`.  The Rust guard `if depth > 20 { return Ok(()) }` is
exactly the `gas = 0` case, and each recursive call passes `depth + 1`,
i.e. `gas - 1`.  The `resolved` HashSet is modelled as a duplicate-free
list; insertion happens only after the membership check, exactly as in the
source. -/
def resolveAux {α : Type} [DecidableEq α] (env : PkgEnv α) :
    Nat → α → List α → List α
  | 0, _, resolved => resolved
  | gas + 1, package_name, resolved =>
    if package_name ∈ resolved then resolved
    else
      let r1 := package_name :: resolved
      match env.lookup package_name with
      | none => r1
      | some m =>
        let r2 := m.dependencies.foldl (fun acc n => resolveAux env gas n acc) r1
        let r3 := (m.peerDependencies.filter env.installed).foldl
          (fun acc n => resolveAux env gas n acc) r2
        (m.optionalDependencies.filter env.installed).foldl
          (fun acc n => resolveAux env gas n acc) r3

/-- Embedding of `resolve_package_dependencies` (bundler.rs): the pnpm
closure step at recursion depth `depth`. -/
def resolve_package_dependencies {α : Type} [DecidableEq α] (env : PkgEnv α)
    (package_name : α) (resolved : List α) (depth : Nat) : List α :=
  resolveAux env (21 - depth) package_name resolved

/-- Embedding of `resolve_workspace_dependencies` (bundler.rs): the same
algorithm as `resolve_package_dependencies`; the two Rust functions differ
only in how `lookup` and `installed` consult the disk, which the abstract
environment captures. -/
def resolve_workspace_dependencies {α : Type} [DecidableEq α] (env : PkgEnv α)
    (package_name : α) (resolved : List α) (depth : Nat) : List α :=
  resolveAux env (21 - depth) package_name resolved

/-- Folding a step that only extends its accumulator extends the
accumulator. -/
theorem foldl_subset_of_step {α : Type} (f : List α → α → List α)
    (hf : ∀ acc n, acc ⊆ f acc n) :
    ∀ (l : List α) (acc : List α), acc ⊆ List.foldl f acc l := by
  intro l
  induction l with
  | nil => intro acc; exact fun x hx => hx
  | cons a as ih =>
    intro acc
    exact List.Subset.trans (hf acc a) (ih (f acc a))

/-- Folding a step that preserves duplicate-freeness preserves
duplicate-freeness. -/
theorem foldl_nodup_of_step {α : Type} (f : List α → α → List α)
    (hf : ∀ acc n, acc.Nodup → (f acc n).Nodup) :
    ∀ (l : List α) (acc : List α), acc.Nodup → (List.foldl f acc l).Nodup := by
  intro l
  induction l with
  | nil => intro acc h; exact h
  | cons a as ih => intro acc h; exact ih (f acc a) (hf acc a h)

/-- The resolver never discards: the input resolved set is contained in
the output. -/
theorem resolveAux_superset {α : Type} [DecidableEq α] (env : PkgEnv α) :
    ∀ (gas : Nat) (p : α) (resolved : List α), resolved ⊆ resolveAux env gas p resolved := by
  intro gas
  induction gas with
  | zero => intro p resolved; exact fun x hx => hx
  | succ g ih =>
    intro p resolved
    by_cases hmem : p ∈ resolved
    · simp [resolveAux, hmem]
    · simp only [resolveAux, if_neg hmem]
      have hsub : resolved ⊆ p :: resolved := List.subset_cons_self p resolved
      cases hlk : env.lookup p with
      | none => exact hsub
      | some m =>
        have hstep : ∀ (acc : List α) (n : α), acc ⊆ resolveAux env g n acc :=
          fun acc n => ih n acc
        refine List.Subset.trans hsub ?_
        refine List.Subset.trans
          (foldl_subset_of_step _ hstep m.dependencies (p :: resolved)) ?_
        refine List.Subset.trans
          (foldl_subset_of_step _ hstep (m.peerDependencies.filter env.installed) _) ?_
        exact foldl_subset_of_step _ hstep (m.optionalDependencies.filter env.installed) _

/-- The resolver inserts a package only after the membership check, so a
duplicate-free resolved set stays duplicate-free: each package name is
inserted at most once. -/
theorem resolveAux_nodup {α : Type} [DecidableEq α] (env : PkgEnv α) :
    ∀ (gas : Nat) (p : α) (resolved : List α), resolved.Nodup →
      (resolveAux env gas p resolved).Nodup := by
  intro gas
  induction gas with
  | zero => intro p resolved h; exact h
  | succ g ih =>
    intro p resolved h
    by_cases hmem : p ∈ resolved
    · simpa [resolveAux, hmem] using h
    · simp only [resolveAux, if_neg hmem]
      have h1 : (p :: resolved).Nodup := List.nodup_cons.mpr ⟨hmem, h⟩
      cases hlk : env.lookup p with
      | none => exact h1
      | some m =>
        have hstep : ∀ (acc : List α) (n : α), acc.Nodup → (resolveAux env g n acc).Nodup :=
          fun acc n => ih n acc
        exact foldl_nodup_of_step _ hstep _ _
          (foldl_nodup_of_step _ hstep _ _
            (foldl_nodup_of_step _ hstep _ _ h1))

/-- Re-entering the resolver on an already-resolved package is a no-op,
whatever depth budget remains: this is the visited-set check that breaks
cycles. -/
theorem resolveAux_visited {α : Type} [DecidableEq α] (env : PkgEnv α)
    (gas : Nat) (p : α) (resolved : List α) (h : p ∈ resolved) :
    resolveAux env gas p resolved = resolved := by
  cases gas with
  | zero => rfl
  | succ g => simp [resolveAux, h]

/-- A manifest whose sole production dependency is package 1. -/
def manifestDep1 : Manifest Nat :=
  { dependencies := [1], devDependencies := [], peerDependencies := [],
    optionalDependencies := [] }

/-- A manifest whose sole production dependency is package 0. -/
def manifestDep0 : Manifest Nat :=
  { dependencies := [0], devDependencies := [], peerDependencies := [],
    optionalDependencies := [] }

/-- A two-package dependency cycle: package 0 depends on package 1 and
package 1 depends on package 0. -/
def cyclicEnv : PkgEnv Nat :=
  { lookup := fun n =>
      if n = 0 then some manifestDep1 else if n = 1 then some manifestDep0 else none,
    installed := fun _ => false }

/-- C7: for every environment (any finite dependency graph, cyclic ones
included) the resolver is a total function whose output preserves
duplicate-freeness (each package name is inserted at most once), never
discards resolved packages, and returns its input unchanged when called on
an already-visited package — the visited-set check that breaks cycles
independently of the remaining depth budget.  On the concrete two-package
cycle, resolution from package 0 terminates with each package exactly
once, and `resolve_workspace_dependencies` is the same algorithm. -/
theorem resolve_package_dependencies_props {α : Type} [DecidableEq α] (env : PkgEnv α)
    (p : α) (resolved : List α) (depth : Nat) (h : resolved.Nodup) :
    (resolve_package_dependencies env p resolved depth).Nodup ∧
    resolved ⊆ resolve_package_dependencies env p resolved depth ∧
    (p ∈ resolved → resolve_package_dependencies env p resolved depth = resolved) ∧
    resolve_workspace_dependencies env p resolved depth =
      resolve_package_dependencies env p resolved depth ∧
    resolve_package_dependencies cyclicEnv 0 ([] : List Nat) 0 = [1, 0] := by
  refine ⟨resolveAux_nodup env _ p resolved h, resolveAux_superset env _ p resolved,
    fun hm => resolveAux_visited env _ p resolved hm, rfl, by decide⟩

/-- Witness for C7 at the concrete cyclic environment with an empty
resolved set. -/
theorem resolve_package_dependencies_props_witness :
    ([] : List Nat).Nodup ∧
    ((resolve_package_dependencies cyclicEnv 0 ([] : List Nat) 0).Nodup ∧
      ([] : List Nat) ⊆ resolve_package_dependencies cyclicEnv 0 ([] : List Nat) 0 ∧
      ((0 : Nat) ∈ ([] : List Nat) →
        resolve_package_dependencies cyclicEnv 0 ([] : List Nat) 0 = []) ∧
      resolve_workspace_dependencies cyclicEnv 0 ([] : List Nat) 0 =
        resolve_package_dependencies cyclicEnv 0 ([] : List Nat) 0 ∧
      resolve_package_dependencies cyclicEnv 0 ([] : List Nat) 0 = [1, 0]) :=
  ⟨List.nodup_nil, resolve_package_dependencies_props cyclicEnv 0 [] 0 List.nodup_nil⟩

/-! ## Source directory selection (`determine_source_directory`, bundler.rs)

Paths are modelled as lists of components relative to the project root
(`[]` is the root itself).  The filesystem queries the function makes are
abstracted into boolean-valued functions, and the outcome of
`read_tsconfig` (tsconfig.json present, parsed, `compilerOptions.outDir`
set) is abstracted into an optional output-directory path. -/

/-- The conventional build-output directory names the selector probes, in
the order the source lists them. -/
def buildDirNames : List String := ["dist", "build", "lib", "out"]

/-- An abstract view of the project filesystem consulted by
`determine_source_directory`: existence and directory-ness of a path, the
`contains_js_files` probe (a directory holds a `.js`, `.mjs` or `.cjs`
file), and the name of the project root directory itself (the
`file_name` of the parent when the entry point sits at the root). -/
structure SrcFs where
  pathExists : List String → Bool
  pathIsDir : List String → Bool
  dirContainsJs : List String → Bool
  rootDirName : String

/-- Name of the parent directory of the manifest's entry-point file, as the
code computes it: the last component of `main`'s parent path, or the
project directory's own name when the entry point sits at the root. -/
def mainParentName (fs : SrcFs) (m : List String) : String :=
  match m.dropLast.getLast? with
  | some n => n
  | none => fs.rootDirName

/-- The `for dir_name in ["dist", "build", "lib", "out"]` loop of
`determine_source_directory`: the first candidate that exists, is a
directory, and holds a JavaScript file or a nested `package.json`. -/
def firstBuildOutputDir (fs : SrcFs) : List String → Option String
  | [] => none
  | d :: ds =>
    if fs.pathExists [d] && fs.pathIsDir [d] &&
        (fs.dirContainsJs [d] || fs.pathExists [d, "package.json"]) then
      some d
    else
      firstBuildOutputDir fs ds

/-- The tail of `determine_source_directory` after the entry-point branch:
the tsconfig output directory if it exists, else the conventional-name
scan, else the project root. -/
def sourceDirFromConfigOrScan (fs : SrcFs) (tsOutDir : Option (List String)) : List String :=
  match tsOutDir with
  | some d =>
    if fs.pathExists d then d
    else
      match firstBuildOutputDir fs buildDirNames with
      | some name => [name]
      | none => []
  | none =>
    match firstBuildOutputDir fs buildDirNames with
    | some name => [name]
    | none => []

/-- Embedding of `determine_source_directory` from `src/bundler.rs`, with
its early-return control flow.  `main` is the manifest's entry-point path
split into components; `tsOutDir` is `some d` exactly when `tsconfig.json`
exists, parses, and its merged `compilerOptions.outDir` names `d`. -/
def determine_source_directory (fs : SrcFs) (main : Option (List String))
    (tsOutDir : Option (List String)) : List String :=
  match main with
  | some m =>
    if buildDirNames.contains (mainParentName fs m) && fs.pathExists m.dropLast then
      m.dropLast
    else
      sourceDirFromConfigOrScan fs tsOutDir
  | none => sourceDirFromConfigOrScan fs tsOutDir

/-- Rule (1) of the claimed policy: the entry-point file's parent, when
that parent is named `dist`, `build`, `lib` or `out` and exists. -/
def entryPointParentCandidate (fs : SrcFs) (main : Option (List String)) :
    Option (List String) :=
  main.bind fun m =>
    if buildDirNames.contains (mainParentName fs m) && fs.pathExists m.dropLast then
      some m.dropLast
    else
      none

/-- Rule (2) of the claimed policy: the compiler configuration's output
directory, when it exists. -/
def tsconfigCandidate (fs : SrcFs) (tsOutDir : Option (List String)) :
    Option (List String) :=
  tsOutDir.bind fun d => if fs.pathExists d then some d else none

/-- Rule (3) of the claimed policy: the first of `dist`, `build`, `lib`,
`out` that exists as a directory and contains a JavaScript file or a
nested manifest. -/
def scanCandidate (fs : SrcFs) : Option (List String) :=
  (buildDirNames.find? fun d =>
    fs.pathExists [d] && fs.pathIsDir [d] &&
      (fs.dirContainsJs [d] || fs.pathExists [d, "package.json"])).map
    fun d => [d]

/-- The claimed selection policy, applied in order with first match
winning; rule (4) selects the project root. -/
def claimedSourceDir (fs : SrcFs) (main : Option (List String))
    (tsOutDir : Option (List String)) : List String :=
  match entryPointParentCandidate fs main with
  | some p => p
  | none =>
    match tsconfigCandidate fs tsOutDir with
    | some d => d
    | none =>
      match scanCandidate fs with
      | some d => d
      | none => []

/-- The scan loop computes exactly the first list element satisfying its
probe. -/
theorem firstBuildOutputDir_eq_find (fs : SrcFs) :
    ∀ l : List String,
      firstBuildOutputDir fs l = l.find? fun d =>
        fs.pathExists [d] && fs.pathIsDir [d] &&
          (fs.dirContainsJs [d] || fs.pathExists [d, "package.json"]) := by
  intro l
  induction l with
  | nil => rfl
  | cons d ds ih =>
    by_cases h : (fs.pathExists [d] && fs.pathIsDir [d] &&
        (fs.dirContainsJs [d] || fs.pathExists [d, "package.json"])) = true
    · simp [firstBuildOutputDir, List.find?, h]
    · simp only [Bool.not_eq_true] at h
      simp [firstBuildOutputDir, List.find?, h, ih]

/-- C8: the source-directory selector implements the claimed four-rule
policy, in order, with first match winning. -/
theorem determine_source_directory_policy (fs : SrcFs) (main : Option (List String))
    (tsOutDir : Option (List String)) :
    determine_source_directory fs main tsOutDir = claimedSourceDir fs main tsOutDir := by
  have hrest : sourceDirFromConfigOrScan fs tsOutDir =
      (match tsconfigCandidate fs tsOutDir with
       | some d => d
       | none =>
         match scanCandidate fs with
         | some d => d
         | none => []) := by
    cases tsOutDir with
    | none =>
      simp only [sourceDirFromConfigOrScan, tsconfigCandidate, Option.bind,
        scanCandidate, ← firstBuildOutputDir_eq_find fs]
      cases firstBuildOutputDir fs buildDirNames <;> rfl
    | some d =>
      by_cases hd : fs.pathExists d = true
      · simp [sourceDirFromConfigOrScan, tsconfigCandidate, hd]
      · simp only [Bool.not_eq_true] at hd
        simp only [sourceDirFromConfigOrScan, tsconfigCandidate, hd,
          Option.bind_eq_bind, Option.some_bind, Bool.false_eq_true, if_false,
          scanCandidate, ← firstBuildOutputDir_eq_find fs]
        cases firstBuildOutputDir fs buildDirNames <;> rfl
  cases main with
  | none => exact hrest
  | some m =>
    have hcode : determine_source_directory fs (some m) tsOutDir =
        (if buildDirNames.contains (mainParentName fs m) && fs.pathExists m.dropLast
         then m.dropLast else sourceDirFromConfigOrScan fs tsOutDir) := rfl
    have hclaim : claimedSourceDir fs (some m) tsOutDir =
        (match (if buildDirNames.contains (mainParentName fs m) && fs.pathExists m.dropLast
                then some m.dropLast else none : Option (List String)) with
         | some p => p
         | none =>
           match tsconfigCandidate fs tsOutDir with
           | some d => d
           | none =>
             match scanCandidate fs with
             | some d => d
             | none => []) := rfl
    rw [hcode, hclaim]
    by_cases hm : (buildDirNames.contains (mainParentName fs m) &&
        fs.pathExists m.dropLast) = true
    · rw [if_pos hm, if_pos hm]
    · rw [if_neg hm, if_neg hm]
      exact hrest

/-! ## Launcher extraction entries (`extract_application` loop, template/src/main.rs)

Each zip entry's name is a character list; the loop's guards, the cleaning
of trailing slashes, the split into path components, and the
`outpath.starts_with(app_dir)` containment check are modelled verbatim.
Paths are component lists; `app_dir` is an arbitrary absolute component
list and `Path::join` on a component never introduces a new root, so the
joined output is always `app_dir ++ components`. -/

/-- Rust `str::trim_end_matches('/')` on a character list. -/
def dropTrailingSlashes (s : List Char) : List Char :=
  (s.reverse.dropWhile (fun c => c = '/')).reverse

/-- Rust `str::trim_matches('/')` on a character list. -/
def trimSlashes (s : List Char) : List Char :=
  dropTrailingSlashes (s.dropWhile (fun c => c = '/'))

/-- Rust `str::split('/')` on a character list: the (possibly empty)
chunks between slashes. -/
def splitSlash : List Char → List (List Char)
  | [] => [[]]
  | c :: cs =>
    let r := splitSlash cs
    if c = '/' then [] :: r
    else
      match r with
      | [] => [[c]]
      | g :: gs => (c :: g) :: gs

/-- The per-entry guards of the `extract_application` loop
(template/src/main.rs): returns the path components the entry will be
written to (relative to the per-build directory), or `none` when one of
the loop's `continue` guards skips the entry.  `isDirMeta` is the zip
library's `file.is_dir()` flag. -/
def entryOutComponents (file_name : List Char) (isDirMeta : Bool) :
    Option (List (List Char)) :=
  if file_name = [] ∨ '\x00' ∈ file_name then none
  else
    let is_directory := file_name.getLast? = some '/' ∨ isDirMeta = true
    if is_directory ∧ (file_name = ['/'] ∨ trimSlashes file_name = []) then none
    else
      let clean_file_name := if is_directory then dropTrailingSlashes file_name else file_name
      if clean_file_name = [] then none
      else
        let path_components := (splitSlash clean_file_name).filter (fun s => s ≠ [])
        if path_components = [] then none else some path_components

/-- The destination `extract_application` actually writes an entry to:
the entry's components joined below `app_dir`, guarded by the
`outpath.starts_with(app_dir)` security check, which skips the entry when
it fails. -/
def extractEntryDest (app_dir : List (List Char)) (file_name : List Char)
    (isDirMeta : Bool) : Option (List (List Char)) :=
  match entryOutComponents file_name isDirMeta with
  | none => none
  | some path_components =>
    let outpath := app_dir ++ path_components
    if List.isPrefixOf app_dir outpath then some outpath else none

/-- Lexical resolution of `.` and `..` path components below a root:
`none` when a `..` would climb above the root (the path escapes), the
resolved components otherwise. -/
def normalizeComponents (components : List (List Char)) : Option (List (List Char)) :=
  components.foldl
    (fun acc c =>
      match acc with
      | none => none
      | some stack =>
        if c = ['.', '.'] then
          match stack with
          | [] => none
          | _ => some stack.dropLast
        else if c = ['.'] then some stack
        else some (stack ++ [c]))
    (some [])

/-- A list is a `isPrefixOf`-prefix of itself followed by anything. -/
theorem isPrefixOf_append_self {α : Type} [DecidableEq α] (l t : List α) :
    List.isPrefixOf l (l ++ t) = true := by
  induction l with
  | nil => cases t <;> rfl
  | cons a as ih => simp [List.isPrefixOf, ih]

/-- The zip entry name `../x`. -/
def dotDotEntryName : List Char := ['.', '.', '/', 'x']

/-- The component list `[.., x]` that the entry `../x` splits into. -/
def dotDotComponents : List (List Char) := [['.', '.'], ['x']]

/-- C1: the `starts_with` containment check of `extract_application` is
vacuous — the output path is built by joining the entry's components onto
`app_dir`, so the check passes for every entry and never skips one — and
consequently the entry `../x`, whose normalisation escapes the per-build
directory, is not skipped: it is written to `app_dir/../x`. -/
theorem extract_application_path_escape (app_dir : List (List Char)) :
    (∀ (file_name : List Char) (isDirMeta : Bool),
      extractEntryDest app_dir file_name isDirMeta =
        (entryOutComponents file_name isDirMeta).map (fun cs => app_dir ++ cs)) ∧
    extractEntryDest app_dir dotDotEntryName false =
      some (app_dir ++ dotDotComponents) ∧
    normalizeComponents dotDotComponents = none := by
  refine ⟨?_, ?_, by decide⟩
  · intro file_name isDirMeta
    unfold extractEntryDest
    cases entryOutComponents file_name isDirMeta with
    | none => rfl
    | some cs => simp [isPrefixOf_append_self]
  · have h : entryOutComponents dotDotEntryName false = some dotDotComponents := by decide
    unfold extractEntryDest
    rw [h]
    simp [isPrefixOf_append_self]

/-! ## Launcher control flow (`main`, template/src/main.rs)

The launcher's `main` is modelled as a pure function of the cache state it
observes on the fast path (`s0`), the cache state it observes after
acquiring the exclusive lock (`s1`, possibly changed by a concurrent
extractor), and the outcome of running `extract_application` (a success
flag `ok` and the tree the extraction leaves in the recreated per-build
directory — on failure, the partially written tree).  It returns the trace
of actions performed and the final cache state. -/

/-- Presence of the files that `is_extraction_valid` probes inside the
per-build directory: the application manifest `app/package.json` and the
runtime executable under `node/`. -/
structure ExtractedTree where
  pkgJson : Bool
  nodeExe : Bool
deriving DecidableEq

/-- A per-build cache directory state: whether the directory exists, the
validation-relevant files inside it, and whether the `.ready` sentinel
file inside it exists. -/
structure CacheState where
  dirExists : Bool
  tree : ExtractedTree
  ready : Bool
deriving DecidableEq

/-- The observable actions of the launcher, in the order `main` performs
them. -/
inductive LaunchAction where
  | lockAcq | lockRel | removeDir | extract | writeReady | runApp | exitErr
deriving DecidableEq

/-- Embedding of `is_extraction_valid` (template/src/main.rs): the
application manifest and the runtime executable both exist (no path inside
a non-existent directory exists). -/
def is_extraction_valid (s : CacheState) : Bool :=
  s.dirExists && s.tree.pkgJson && s.tree.nodeExe

/-- The `ready_file.exists()` probe: the sentinel lives inside the
per-build directory. -/
def readyFileExists (s : CacheState) : Bool :=
  s.dirExists && s.ready

/-- Embedding of `extract_application` (template/src/main.rs) at the level
of the cache state: an existing per-build directory is first removed, the
directory is recreated, and the archive entries are written into it; the
result is the actions performed, the state left behind, and the success
flag.  On failure the recreated directory, holding whatever was written
before the error, is left in place. -/
def extract_application (s : CacheState) (ok : Bool) (t : ExtractedTree) :
    List LaunchAction × CacheState × Bool :=
  ((if s.dirExists then [LaunchAction.removeDir] else []) ++ [LaunchAction.extract],
    { dirExists := true, tree := t, ready := false }, ok)

/-- Embedding of the launcher `main` (template/src/main.rs): fast-path
sentinel check, lock acquisition, double-check under the lock, extraction,
sentinel write, unlock, exec.  A failed extraction propagates the error:
the process exits nonzero without writing the sentinel, and the lock is
released only by process exit (no explicit unlock action). -/
def launcherMain (s0 s1 : CacheState) (ok : Bool) (t : ExtractedTree) :
    List LaunchAction × CacheState :=
  if readyFileExists s0 && is_extraction_valid s0 then
    ([LaunchAction.runApp], s0)
  else if readyFileExists s1 && is_extraction_valid s1 then
    ([LaunchAction.lockAcq, LaunchAction.lockRel, LaunchAction.runApp], s1)
  else
    match extract_application s1 ok t with
    | (acts, s2, true) =>
      (LaunchAction.lockAcq :: acts ++
        [LaunchAction.writeReady, LaunchAction.lockRel, LaunchAction.runApp],
        { s2 with ready := true })
    | (acts, s2, false) =>
      (LaunchAction.lockAcq :: acts ++ [LaunchAction.exitErr], s2)

/-- C4: a launch that observes an existing, valid sentinel — on the fast
path, or re-checked right after acquiring the lock — performs no
extraction and leaves the cache state untouched: the trace is exactly the
exec (plus lock acquisition and release in the double-check case), with no
`removeDir`, `extract` or `writeReady` action. -/
theorem launcherMain_valid_sentinel_no_mutation (s0 s1 : CacheState) (ok : Bool)
    (t : ExtractedTree) :
    ((readyFileExists s0 && is_extraction_valid s0) = true →
      launcherMain s0 s1 ok t = ([LaunchAction.runApp], s0)) ∧
    ((readyFileExists s0 && is_extraction_valid s0) = false →
      (readyFileExists s1 && is_extraction_valid s1) = true →
      launcherMain s0 s1 ok t =
        ([LaunchAction.lockAcq, LaunchAction.lockRel, LaunchAction.runApp], s1)) := by
  constructor
  · intro h
    simp [launcherMain, h]
  · intro h0 h1
    simp [launcherMain, h0, h1]

/-- Witness for C4: a ready, valid cache taken on the fast path, and an
initially-empty cache that becomes ready while waiting for the lock. -/
theorem launcherMain_valid_sentinel_no_mutation_witness :
    ((readyFileExists ⟨true, ⟨true, true⟩, true⟩ &&
        is_extraction_valid ⟨true, ⟨true, true⟩, true⟩) = true →
      launcherMain ⟨true, ⟨true, true⟩, true⟩ ⟨true, ⟨true, true⟩, true⟩ true ⟨true, true⟩ =
        ([LaunchAction.runApp], ⟨true, ⟨true, true⟩, true⟩)) ∧
    ((readyFileExists ⟨false, ⟨false, false⟩, false⟩ &&
        is_extraction_valid ⟨false, ⟨false, false⟩, false⟩) = false →
      (readyFileExists ⟨true, ⟨true, true⟩, true⟩ &&
        is_extraction_valid ⟨true, ⟨true, true⟩, true⟩) = true →
      launcherMain ⟨false, ⟨false, false⟩, false⟩ ⟨true, ⟨true, true⟩, true⟩ true ⟨true, true⟩ =
        ([LaunchAction.lockAcq, LaunchAction.lockRel, LaunchAction.runApp],
          ⟨true, ⟨true, true⟩, true⟩)) :=
  ⟨(launcherMain_valid_sentinel_no_mutation ⟨true, ⟨true, true⟩, true⟩
      ⟨true, ⟨true, true⟩, true⟩ true ⟨true, true⟩).1,
   (launcherMain_valid_sentinel_no_mutation ⟨false, ⟨false, false⟩, false⟩
      ⟨true, ⟨true, true⟩, true⟩ true ⟨true, true⟩).2⟩

/-- C2 counterexample: from an empty cache, a successful extraction whose
resulting tree lacks `app/package.json` still gets the `.ready` sentinel —
`main` writes the sentinel right after `extract_application` returns,
without re-validating — so a sentinel can exist while validation fails. -/
theorem launcherMain_sentinel_without_validation :
    (launcherMain ⟨false, ⟨false, false⟩, false⟩ ⟨false, ⟨false, false⟩, false⟩
        true ⟨false, true⟩).2 =
      ⟨true, ⟨false, true⟩, true⟩ ∧
    readyFileExists ⟨true, ⟨false, true⟩, true⟩ = true ∧
    is_extraction_valid ⟨true, ⟨false, true⟩, true⟩ = false := by
  refine ⟨by decide, by decide, by decide⟩

/-- C2 amended: after a successful extraction the launcher writes the
sentinel immediately, for any resulting tree, without re-validating;
validation runs only on the fast path and on the post-lock double check.
A sentinel therefore attests only that extraction reported success, not
that the manifest and runtime executable are present. -/
theorem launcherMain_writes_sentinel_after_success (s0 s1 : CacheState)
    (t : ExtractedTree)
    (h0 : (readyFileExists s0 && is_extraction_valid s0) = false)
    (h1 : (readyFileExists s1 && is_extraction_valid s1) = false) :
    launcherMain s0 s1 true t =
      (LaunchAction.lockAcq ::
        ((if s1.dirExists then [LaunchAction.removeDir] else []) ++
          [LaunchAction.extract, LaunchAction.writeReady, LaunchAction.lockRel,
            LaunchAction.runApp]),
        { dirExists := true, tree := t, ready := true }) := by
  simp [launcherMain, h0, h1, extract_application]

/-- Witness for C2: an empty cache and an extraction leaving a tree with
no manifest; the sentinel is written regardless. -/
theorem launcherMain_writes_sentinel_after_success_witness :
    (readyFileExists ⟨false, ⟨false, false⟩, false⟩ &&
      is_extraction_valid ⟨false, ⟨false, false⟩, false⟩) = false ∧
    launcherMain ⟨false, ⟨false, false⟩, false⟩ ⟨false, ⟨false, false⟩, false⟩
        true ⟨false, true⟩ =
      (LaunchAction.lockAcq ::
        ((if (⟨false, ⟨false, false⟩, false⟩ : CacheState).dirExists then
            [LaunchAction.removeDir] else []) ++
          [LaunchAction.extract, LaunchAction.writeReady, LaunchAction.lockRel,
            LaunchAction.runApp]),
        { dirExists := true, tree := ⟨false, true⟩, ready := true }) :=
  ⟨by decide,
   launcherMain_writes_sentinel_after_success ⟨false, ⟨false, false⟩, false⟩
     ⟨false, ⟨false, false⟩, false⟩ ⟨false, true⟩ (by decide) (by decide)⟩

/-- C3 counterexample: from an empty cache, a failed extraction exits with
an error and no sentinel, but the partially extracted per-build directory
is left in place — the launcher does not remove it before the lock is
released, so the next acquirer does NOT start from a state with no
per-build directory. -/
theorem launcherMain_failed_extraction_leaves_directory :
    (launcherMain ⟨false, ⟨false, false⟩, false⟩ ⟨false, ⟨false, false⟩, false⟩
        false ⟨true, false⟩).2.dirExists = true ∧
    (launcherMain ⟨false, ⟨false, false⟩, false⟩ ⟨false, ⟨false, false⟩, false⟩
        false ⟨true, false⟩).2.ready = false ∧
    LaunchAction.removeDir ∉
      (launcherMain ⟨false, ⟨false, false⟩, false⟩ ⟨false, ⟨false, false⟩, false⟩
        false ⟨true, false⟩).1 := by
  refine ⟨by decide, by decide, by decide⟩

/-- C3 amended: when extraction fails inside the critical section the
launcher exits with an error, never writes the sentinel, and leaves the
partially extracted per-build directory behind; recovery instead relies on
`extract_application` removing any existing per-build directory at the
START of the next extraction, as the trace's leading `removeDir` shows. -/
theorem launcherMain_failed_extraction (s0 s1 : CacheState) (t : ExtractedTree)
    (h0 : (readyFileExists s0 && is_extraction_valid s0) = false)
    (h1 : (readyFileExists s1 && is_extraction_valid s1) = false) :
    launcherMain s0 s1 false t =
      (LaunchAction.lockAcq ::
        ((if s1.dirExists then [LaunchAction.removeDir] else []) ++
          [LaunchAction.extract, LaunchAction.exitErr]),
        { dirExists := true, tree := t, ready := false }) := by
  simp [launcherMain, h0, h1, extract_application]

/-- Witness for C3: a failed extraction over a leftover invalid directory;
the trace removes the old directory first, then fails, leaving the partial
directory and no sentinel. -/
theorem launcherMain_failed_extraction_witness :
    (readyFileExists ⟨true, ⟨true, false⟩, false⟩ &&
      is_extraction_valid ⟨true, ⟨true, false⟩, false⟩) = false ∧
    launcherMain ⟨true, ⟨true, false⟩, false⟩ ⟨true, ⟨true, false⟩, false⟩
        false ⟨true, false⟩ =
      (LaunchAction.lockAcq ::
        ((if (⟨true, ⟨true, false⟩, false⟩ : CacheState).dirExists then
            [LaunchAction.removeDir] else []) ++
          [LaunchAction.extract, LaunchAction.exitErr]),
        { dirExists := true, tree := ⟨true, false⟩, ready := false }) :=
  ⟨by decide,
   launcherMain_failed_extraction ⟨true, ⟨true, false⟩, false⟩
     ⟨true, ⟨true, false⟩, false⟩ ⟨true, false⟩ (by decide) (by decide)⟩
